import Mathlib

/-!
Shallow embedding of `injection/main.py` (deferred, scope-local dependency
injection) and proofs about its behaviour.

Modelling notes (single-threaded execution, which is what the settled claims
quantify over):

* The Python scope is a `dict` whose interesting entries are keyed by
  `InjectionKey` (a `str` subclass with a side-effecting `__eq__`).  At most
  one entry per alias string exists, so we model a scope as an association
  list from the alias string to a `Slot` recording the *kind* of stored key
  (`plain` string vs `InjectionKey`, together with the key's one-shot `reset`
  flag and its `early` back-reference) and the stored dict value.
* `ObjectState` is the shared construction record: `object` (with `SENTINEL`
  modelled as `Option.none`, so the sentinel is distinct from every legal
  `Value` by construction, including the model of Python `None`),
  `running` (the in-flight `(id(early), thread-id)` token set) and the
  caching policy.  The `calls` field is instrumentation: it counts factory
  invocations, exactly like the "global call counter" factories used by the
  repository's own tests.
* The user factory is modelled as a function of its invocation count
  returning `Except Err Value`: this captures constant factories, counting
  factories and raising factories, which is all the claims need.  The
  `pass_scope` plumbing of `InjectionFactoryWrapper` only changes the
  factory's argument and is not load-bearing for any claim.
* Locks (`__mutex__`, `_reassignment_lock`) are no-ops single-threaded and
  are not modelled.
* A top-level read `scope[alias]` is modelled by `readAlias`.  It follows
  CPython dict-lookup semantics: probing calls the stored key's `__eq__`;
  when the comparison mutated the dict (which `EarlyObject.__inject__`
  always does on the triggering path), the lookup restarts and probes again,
  so a `reset := True` flag written during `__inject__` is consumed by the
  restarted probe of the *same* read.  Reads performed from frames carrying
  `__injection_recursive_guard__` (the internal delete/insert steps of
  `__inject__`) are modelled directly as scope operations, as the guard
  makes their key comparisons side-effect free.
* `cache_per_alias = False` is the branch of `EarlyObject.__inject__` that
  reinstalls the equality-trapping key after a successful read (per-alias
  dynamic re-triggering); `cache_per_alias = True` leaves a plain entry, so
  later reads bypass interception.  This matches the repository's tests
  (`test_injection_dynamic_true` / `test_injection_once_false`).
-/

set_option autoImplicit false

namespace Injection

/-- Values produced by factories.  Python `None` is `Value.noneV`; it is a
legal value, distinct from the `SENTINEL` (which is `Option.none` at the
`ObjectState.object` level, not a `Value`). -/
inductive Value where
  | str (s : String)
  | nat (n : Nat)
  | noneV
  deriving DecidableEq, Repr

/-- Exceptions observable at a read site. -/
inductive Err where
  | keyError
  | valueError (msg : String)
  | recursionError (msg : String)
  | userError (msg : String)
  deriving DecidableEq, Repr

/-- `EarlyObject`: one alias's placeholder handle.  `id` models Python
`id(early)` (distinct per handle of one attachment), `cachePerAlias` the
`cache_per_alias` flag captured at `assign_to` time, `debugInfo` the string
built by `assign_to`. -/
structure Early where
  aliasName : String
  cachePerAlias : Bool
  id : Nat
  debugInfo : String
  deriving DecidableEq, Repr

/-- The kind of key stored in a scope slot: a plain `str`, or an
`InjectionKey` with its one-shot `reset` flag and `early` back-reference. -/
inductive KeyPart where
  | plain
  | injKey (reset : Bool) (early : Early)
  deriving DecidableEq, Repr

/-- The dict value stored in a scope slot: the `EarlyObject` placeholder
itself (before triggering) or an ordinary value. -/
inductive SlotVal where
  | earlyObj (early : Early)
  | value (v : Value)
  deriving DecidableEq, Repr

structure Slot where
  key : KeyPart
  val : SlotVal
  deriving DecidableEq, Repr

/-- A scope: at most one dict entry per alias string (the `InjectionKey`
hashes and compares equal to its origin alias). -/
abbrev Scope := List (String × Slot)

def lookupScope : Scope → String → Option Slot
  | [], _ => none
  | (b, sl) :: rest, a => if b = a then some sl else lookupScope rest a

def eraseScope : Scope → String → Scope
  | [], _ => []
  | (b, sl) :: rest, a =>
      if b = a then eraseScope rest a else (b, sl) :: eraseScope rest a

def insertScope (s : Scope) (a : String) (sl : Slot) : Scope :=
  (a, sl) :: eraseScope s a

/-- The world: one scope plus one shared construction record
(`ObjectState`).  `obj = none` models `self.object is SENTINEL`;
`running` models `ObjectState.running`; `calls` counts factory
invocations (instrumentation mirroring the tests' global call counters). -/
structure World where
  scope : Scope
  obj : Option Value
  running : List (Nat × Nat)
  calls : Nat
  deriving DecidableEq, Repr

/-- The configuration shared by all handles of one attachment: the factory
(as a function of its invocation count), the `cache` policy, the recursion
guard and the current thread id (`get_ident()`). -/
structure Config where
  factory : Nat → Except Err Value
  cache : Bool
  guard : Early → Except Err Unit
  tid : Nat

/-- `repr(early)` as produced by `EarlyObject.__repr__` for a handle that
has a debug label (every handle made by `assign_to` has one). -/
def earlyRepr (e : Early) : String :=
  "<EarlyObject (" ++ e.debugInfo ++ " before __inject__())>"

/-- `lenient_recursion_guard`: does nothing. -/
def lenient_recursion_guard (_e : Early) : Except Err Unit := .ok ()

/-- `strict_recursion_guard`: raises `RecursionError(f"{early} requested
itself")`. -/
def strict_recursion_guard (e : Early) : Except Err Unit :=
  .error (.recursionError (earlyRepr e ++ " requested itself"))

/-- `ObjectState.create(early)`.  Returns the (possibly raised) outcome and
the updated record.  Mirrors: when the value is still the sentinel or the
policy is not build-once, compute the `(id(early), get_ident())` token; if
in flight, call the recursion guard (no construction); otherwise add the
token, invoke the factory, store the result, and remove the token even if
the factory raised (`try`/`finally`). -/
def create (cfg : Config) (w : World) (e : Early) : Except Err Unit × World :=
  if w.obj.isNone || !cfg.cache then
    let recursionKey := (e.id, cfg.tid)
    if recursionKey ∈ w.running then
      (cfg.guard e, w)
    else
      let running1 := recursionKey :: w.running
      match cfg.factory w.calls with
      | .ok v =>
          (.ok (), { w with obj := some v, calls := w.calls + 1,
                            running := running1.erase recursionKey })
      | .error ex =>
          (.error ex, { w with calls := w.calls + 1,
                               running := running1.erase recursionKey })
  else
    (.ok (), w)

/-- `EarlyObject.__inject__()`.  Calls `create`; on success deletes the
alias entry, and unless the record still holds the sentinel, installs the
built value under the plain alias; when `cache_per_alias` is false it then
replaces that entry with the trapping `InjectionKey` (with `reset = True`)
mapping to the same value.  A factory exception propagates before any scope
mutation. -/
def injectStep (cfg : Config) (w : World) (e : Early) : Except Err Unit × World :=
  match create cfg w e with
  | (.error ex, w1) => (.error ex, w1)
  | (.ok _, w1) =>
    let scope1 := eraseScope w1.scope e.aliasName
    match w1.obj with
    | none => (.ok (), { w1 with scope := scope1 })
    | some v =>
      let scope2 := insertScope scope1 e.aliasName ⟨.plain, .value v⟩
      if e.cachePerAlias then
        (.ok (), { w1 with scope := scope2 })
      else
        let scope3 := insertScope (eraseScope scope2 e.aliasName) e.aliasName
                        ⟨.injKey true e, .value v⟩
        (.ok (), { w1 with scope := scope3 })

/-- What a successful dict lookup returns: the stored value, which is the
`EarlyObject` itself only in states no top-level read ever observes. -/
inductive Looked where
  | value (v : Value)
  | early (e : Early)
  deriving DecidableEq, Repr

def slotResult : SlotVal → Looked
  | .earlyObj e => .early e
  | .value v => .value v

/-- `InjectionKey.__eq__`'s one-shot flag consumption: the stored key's
`reset` attribute is cleared in place. -/
def clearReset (w : World) (a : String) : World :=
  match lookupScope w.scope a with
  | some ⟨.injKey _ e, sv⟩ =>
      { w with scope := insertScope (eraseScope w.scope a) a ⟨.injKey false e, sv⟩ }
  | _ => w

/-- A top-level read `scope[a]` from a frame with no
`__injection_recursive_guard__` and with peeking off.  Probing compares the
stored key with `a`: a plain key matches with no side effect; an
`InjectionKey` with `reset` set clears the flag and matches; an armed
`InjectionKey` triggers `__inject__` under the handle's mutex, after which
the mutated dict restarts the probe (consuming the freshly set `reset` flag
or finding the plain entry).  The final inner branch is unreachable for
well-formed scopes: after `injectStep` the slot at `e.aliasName` is absent,
plain, or reset-flagged. -/
def readAlias (cfg : Config) (w : World) (a : String) : Except Err Looked × World :=
  match lookupScope w.scope a with
  | none => (.error .keyError, w)
  | some ⟨.plain, sv⟩ => (.ok (slotResult sv), w)
  | some ⟨.injKey true _, sv⟩ => (.ok (slotResult sv), clearReset w a)
  | some ⟨.injKey false e, _⟩ =>
    match injectStep cfg w e with
    | (.error ex, w1) => (.error ex, w1)
    | (.ok _, w1) =>
      match lookupScope w1.scope a with
      | none => (.error .keyError, w1)
      | some ⟨.plain, sv2⟩ => (.ok (slotResult sv2), w1)
      | some ⟨.injKey true _, sv2⟩ => (.ok (slotResult sv2), clearReset w1 a)
      | some ⟨.injKey false _, _⟩ => (.error .keyError, w1)

/-- A sequence of top-level reads, returning every read's outcome. -/
def readMany (cfg : Config) (w : World) : List String → List (Except Err Looked) × World
  | [] => ([], w)
  | a :: rest =>
    let (r, w1) := readAlias cfg w a
    let (rs, w2) := readMany cfg w1 rest
    (r :: rs, w2)

/-- `peek(scope, alias)`: a lookup in a context with `peeking_var` set.
`InjectionKey.__eq__` checks `reset` before the peeking flag, so a
reset-flagged key is consumed and nothing is reported; an armed key reports
its `early` back-reference without triggering; plain keys and missing
entries report nothing (`Context.get` default `None`). -/
def peek (w : World) (a : String) : Option Early × World :=
  match lookupScope w.scope a with
  | none => (none, w)
  | some ⟨.plain, _⟩ => (none, w)
  | some ⟨.injKey true _, _⟩ => (none, clearReset w a)
  | some ⟨.injKey false e, _⟩ => (some e, w)

/-- The `EarlyObject` built by `assign_to` for one alias: the debug label is
`f"{alias!r} from {self.debug_info}"`. -/
def mkEarly (a : String) (cachePerAlias : Bool) (id : Nat) (injDebug : String) : Early :=
  { aliasName := a, cachePerAlias := cachePerAlias, id := id,
    debugInfo := "'" ++ a ++ "' from " ++ injDebug }

/-- The per-alias loop of `assign_to`: for each alias, build an
`EarlyObject`, `scope.pop(key, None)` and `scope[key] = early_object`. -/
def installAliases (cachePerAlias : Bool) (injDebug : String) :
    List String → Nat → Scope → Scope
  | [], _, s => s
  | a :: rest, i, s =>
      let e := mkEarly a cachePerAlias i injDebug
      installAliases cachePerAlias injDebug rest (i + 1)
        (insertScope (eraseScope s a) a ⟨.injKey false e, .earlyObj e⟩)

/-- `Injection.assign_to(*aliases, scope=scope)`: with no aliases, raise
`ValueError` before touching the scope; otherwise build one fresh shared
`ObjectState` (sentinel value, empty running set) and install one armed
`InjectionKey`/`EarlyObject` pair per alias. -/
def assign_to (cachePerAlias : Bool) (injDebug : String)
    (aliases : List String) (scope : Scope) : Except Err World :=
  if aliases.isEmpty then
    .error (.valueError ("expected at least one alias in Injection.assign_to() ("
      ++ injDebug ++ ")"))
  else
    .ok { scope := installAliases cachePerAlias injDebug aliases 0 scope,
          obj := none, running := [], calls := 0 }

/-- Result of the imperative `inject(...)` entry point. -/
inductive InjectOutcome where
  | attached (w : World)
  | noop
  deriving DecidableEq, Repr

/-- The imperative `inject(*aliases, into=..., ...)` entry point: builds the
`Injection` and then runs `assign_to` only `if into is not None and
aliases`; with zero aliases (or no scope) it silently does nothing. -/
def inject (cachePerAlias : Bool) (injDebug : String)
    (aliases : List String) (into : Option Scope) : Except Err InjectOutcome :=
  match into with
  | some scope =>
      if aliases.isEmpty then .ok .noop
      else (assign_to cachePerAlias injDebug aliases scope).map .attached
  | none => .ok .noop

/-! ### State predicates used by the theorems -/

/-- The slot of an alias carrying an armed trapping key whose handle is in
dynamic (`cache_per_alias = False`) mode. -/
def ArmedAt (w : World) (a : String) : Prop :=
  ∃ e sv, lookupScope w.scope a = some ⟨.injKey false e, sv⟩ ∧
    e.aliasName = a ∧ e.cachePerAlias = false

/-- Invariant of a build-once (`cache = True`) attachment over aliases `as`
whose first factory call yields `v`: the shared record is untouched (no
factory call yet) or holds `v` after exactly one call, and every attached
alias still carries an armed trapping key. -/
def OnceInv (as : List String) (v : Value) (w : World) : Prop :=
  w.running = [] ∧
  ((w.obj = none ∧ w.calls = 0) ∨ (w.obj = some v ∧ w.calls = 1)) ∧
  ∀ a ∈ as, ArmedAt w a

/-- An at-rest scope: every stored `InjectionKey` is filed under its own
alias and has its one-shot `reset` flag clear.  `assign_to` only creates
such scopes and completed top-level reads preserve the property (the
`reset` flag set during `__inject__` is consumed by the same read), so
every state in which `peek` can run single-threaded is at rest. -/
def AtRestS (s : Scope) : Prop :=
  ∀ b r e sv, lookupScope s b = some ⟨.injKey r e, sv⟩ →
    e.aliasName = b ∧ r = false

/-! ### Concrete instances (used to evaluate the theorems on closed inputs) -/

/-- A build-once configuration with a constant factory. -/
def onceCfg : Config :=
  ⟨fun _ => .ok (.str "shared"), true, strict_recursion_guard, 0⟩

/-- A rebuild-every-access configuration with a counting factory, like the
tests' `factory` returning `f"injected_object_{call_count}"`. -/
def countCfg : Config :=
  ⟨fun k => .ok (.str ("injected_object_" ++ toString (k + 1))), false,
   strict_recursion_guard, 0⟩

/-- A rebuild-every-access configuration with a constant factory
returning `"v"`. -/
def constCfg : Config :=
  ⟨fun _ => .ok (.str "v"), false, strict_recursion_guard, 0⟩

/-- A configuration whose factory always raises `ValueError("Factory
error")`, like the tests' raising factory. -/
def failCfg : Config :=
  ⟨fun _ => .error (.valueError "Factory error"), false,
   strict_recursion_guard, 0⟩

/-- A rebuild-every-access configuration whose factory returns Python
`None`. -/
def noneCfg : Config :=
  ⟨fun _ => .ok .noneV, false, strict_recursion_guard, 0⟩

/-- The `EarlyObject` made by `assign_to` with debug label `"f"`. -/
def earlyW (a : String) (cpa : Bool) (i : Nat) : Early := mkEarly a cpa i "f"

/-- The scope slot installed by `assign_to` for one alias. -/
def armedSlotW (a : String) (cpa : Bool) (i : Nat) : Slot :=
  ⟨.injKey false (earlyW a cpa i), .earlyObj (earlyW a cpa i)⟩

/-- The world produced by `assign_to false "f" ["a", "b"] []`. -/
def wAB : World :=
  { scope := [("b", armedSlotW "b" false 1), ("a", armedSlotW "a" false 0)],
    obj := none, running := [], calls := 0 }

/-- The world produced by `assign_to cpa "f" ["x"] []`. -/
def wX (cpa : Bool) : World :=
  { scope := [("x", armedSlotW "x" cpa 0)],
    obj := none, running := [], calls := 0 }

end Injection

/-! ### Basic lemmas about scope operations -/

namespace Injection

theorem lookupScope_insert_self (s : Scope) (a : String) (sl : Slot) :
    lookupScope (insertScope s a sl) a = some sl := by
  simp [insertScope, lookupScope]

theorem lookupScope_erase_ne (s : Scope) (a b : String) (h : a ≠ b) :
    lookupScope (eraseScope s a) b = lookupScope s b := by
  induction s with
  | nil => rfl
  | cons hd tl ih =>
    obtain ⟨c, sl⟩ := hd
    by_cases hc : c = a
    · subst hc
      simp [eraseScope, lookupScope, h, ih]
    · by_cases hb : c = b <;> simp [eraseScope, lookupScope, hc, hb, ih, Ne.symm h]

theorem lookupScope_insert_ne (s : Scope) (a b : String) (sl : Slot) (h : a ≠ b) :
    lookupScope (insertScope s a sl) b = lookupScope s b := by
  simp only [insertScope, lookupScope, if_neg h, lookupScope_erase_ne s a b h]

theorem eraseScope_idem (s : Scope) (a : String) :
    eraseScope (eraseScope s a) a = eraseScope s a := by
  induction s with
  | nil => rfl
  | cons hd tl ih =>
    obtain ⟨c, sl⟩ := hd
    by_cases hc : c = a
    · simp [eraseScope, hc, ih]
    · simp [eraseScope, hc, ih]

theorem eraseScope_cons_self (s : Scope) (a : String) (sl : Slot) :
    eraseScope ((a, sl) :: s) a = eraseScope s a := by
  simp [eraseScope]

theorem eraseScope_insert_self (s : Scope) (a : String) (sl : Slot) :
    eraseScope (insertScope s a sl) a = eraseScope s a := by
  simp [insertScope, eraseScope, eraseScope_idem]

/-! ### Case lemmas for `create` -/

theorem erase_tok_cons (rk : Nat × Nat) (l : List (Nat × Nat)) :
    (rk :: l).erase rk = l := by
  simp [List.erase_cons_head]

/-- `create` when materialization is wanted, the token is not in flight and
the factory succeeds: the value is stored, the call counter advances, and
the token set ends as it started (added, then removed in the `finally`). -/
theorem create_fresh_ok (cfg : Config) (w : World) (e : Early) (v : Value)
    (hcond : (w.obj.isNone || !cfg.cache) = true)
    (hrk : (e.id, cfg.tid) ∉ w.running)
    (hf : cfg.factory w.calls = .ok v) :
    create cfg w e = (.ok (), { w with obj := some v, calls := w.calls + 1 }) := by
  simp [create, hcond, hrk, hf, erase_tok_cons]

/-- `create` when the factory raises: the exact exception is returned, the
value is not stored, and the in-flight token is still removed. -/
theorem create_fresh_err (cfg : Config) (w : World) (e : Early) (ex : Err)
    (hcond : (w.obj.isNone || !cfg.cache) = true)
    (hrk : (e.id, cfg.tid) ∉ w.running)
    (hf : cfg.factory w.calls = .error ex) :
    create cfg w e = (.error ex, { w with calls := w.calls + 1 }) := by
  simp [create, hcond, hrk, hf, erase_tok_cons]

/-- `create` under build-once policy once a value exists: no-op. -/
theorem create_cached (cfg : Config) (w : World) (e : Early) (v : Value)
    (hobj : w.obj = some v) (hcache : cfg.cache = true) :
    create cfg w e = (.ok (), w) := by
  simp [create, hobj, hcache]

/-- `create` re-entered on the same thread for the same handle: the factory
is not invoked, the recursion guard is invoked with the handle, and the
record is untouched. -/
theorem create_inflight (cfg : Config) (w : World) (e : Early)
    (hcond : (w.obj.isNone || !cfg.cache) = true)
    (hrk : (e.id, cfg.tid) ∈ w.running) :
    create cfg w e = (cfg.guard e, w) := by
  simp [create, hcond, hrk]

end Injection

/-! ### Behaviour of a single top-level read -/

namespace Injection

/-- Reading an alias whose slot holds a plain key: an ordinary dict hit,
no interception, no mutation. -/
theorem readAlias_plain (cfg : Config) (w : World) (a : String) (sv : SlotVal)
    (hslot : lookupScope w.scope a = some ⟨.plain, sv⟩) :
    readAlias cfg w a = (.ok (slotResult sv), w) := by
  simp only [readAlias, hslot]

/-- A triggering read of an alias whose handle is in dynamic
(`cache_per_alias = False`) mode, when `create` succeeds and leaves a built
value: the read returns that value and re-installs the trapping key (the
`reset` flag written during `__inject__` is consumed by the restarted probe
of this same read, leaving the key armed for the next read). -/
theorem readAlias_armed_dyn (cfg : Config) (w wc : World) (e : Early)
    (sv : SlotVal) (v : Value)
    (hslot : lookupScope w.scope e.aliasName = some ⟨.injKey false e, sv⟩)
    (hcpa : e.cachePerAlias = false)
    (hcreate : create cfg w e = (.ok (), wc))
    (hobj : wc.obj = some v) :
    readAlias cfg w e.aliasName =
      (.ok (.value v),
       { wc with scope :=
          insertScope wc.scope e.aliasName ⟨.injKey false e, .value v⟩ }) := by
  have hstep : injectStep cfg w e =
      (.ok (),
       { wc with scope :=
          insertScope wc.scope e.aliasName ⟨.injKey true e, .value v⟩ }) := by
    simp only [injectStep, hcreate, hobj, hcpa]
    simp [insertScope, eraseScope_cons_self, eraseScope_idem]
  simp only [readAlias, hslot, hstep, lookupScope_insert_self, slotResult,
    clearReset]
  simp [insertScope, eraseScope_cons_self, eraseScope_idem]

/-- A triggering read of an alias whose handle is *not* in dynamic mode
(`cache_per_alias = True`), when `create` succeeds and leaves a built
value: the read returns that value and leaves a plain entry, so later
reads bypass interception entirely. -/
theorem readAlias_armed_frozen (cfg : Config) (w wc : World) (e : Early)
    (sv : SlotVal) (v : Value)
    (hslot : lookupScope w.scope e.aliasName = some ⟨.injKey false e, sv⟩)
    (hcpa : e.cachePerAlias = true)
    (hcreate : create cfg w e = (.ok (), wc))
    (hobj : wc.obj = some v) :
    readAlias cfg w e.aliasName =
      (.ok (.value v),
       { wc with scope :=
          insertScope wc.scope e.aliasName ⟨.plain, .value v⟩ }) := by
  have hstep : injectStep cfg w e =
      (.ok (),
       { wc with scope :=
          insertScope wc.scope e.aliasName ⟨.plain, .value v⟩ }) := by
    simp only [injectStep, hcreate, hobj, hcpa]
    simp [insertScope, eraseScope_cons_self, eraseScope_idem]
  simp only [readAlias, hslot, hstep, lookupScope_insert_self, slotResult]

/-- A triggering read during which `create` raises: the exception
propagates unmodified to the read site, before any scope mutation. -/
theorem readAlias_armed_err (cfg : Config) (w wc : World) (e : Early)
    (sv : SlotVal) (ex : Err)
    (hslot : lookupScope w.scope e.aliasName = some ⟨.injKey false e, sv⟩)
    (hcreate : create cfg w e = (.error ex, wc)) :
    readAlias cfg w e.aliasName = (.error ex, wc) := by
  simp only [readAlias, hslot, injectStep, hcreate]

end Injection

/-! ### Attachment lemmas -/

namespace Injection

theorem installAliases_not_mem (cpa : Bool) (dbg : String) :
    ∀ (as : List String) (a : String), a ∉ as → ∀ (i : Nat) (s : Scope),
      lookupScope (installAliases cpa dbg as i s) a = lookupScope s a := by
  intro as
  induction as with
  | nil => intro a _ i s; rfl
  | cons b rest ih =>
    intro a ha i s
    have ha1 : a ≠ b := by
      intro h
      subst h
      exact ha (List.mem_cons_self a rest)
    have ha2 : a ∉ rest := fun h => ha (List.mem_cons_of_mem _ h)
    simp only [installAliases]
    rw [ih a ha2, lookupScope_insert_ne _ _ _ _ (Ne.symm ha1),
        lookupScope_erase_ne _ _ _ (Ne.symm ha1)]

theorem installAliases_mem (cpa : Bool) (dbg : String) :
    ∀ (as : List String) (a : String), a ∈ as → ∀ (i : Nat) (s : Scope),
      ∃ e : Early,
        lookupScope (installAliases cpa dbg as i s) a
          = some ⟨.injKey false e, .earlyObj e⟩ ∧
        e.aliasName = a ∧ e.cachePerAlias = cpa := by
  intro as
  induction as with
  | nil => intro a ha; cases ha
  | cons b rest ih =>
    intro a ha i s
    by_cases hmem : a ∈ rest
    · obtain ⟨e, h1, h2, h3⟩ := ih a hmem (i + 1) _
      exact ⟨e, h1, h2, h3⟩
    · have hab : a = b := by
        rcases List.mem_cons.mp ha with h | h
        · exact h
        · exact absurd h hmem
      subst hab
      refine ⟨mkEarly a cpa i dbg, ?_, rfl, rfl⟩
      simp only [installAliases]
      rw [installAliases_not_mem cpa dbg rest a hmem (i + 1) _,
          lookupScope_insert_self]

theorem assign_to_ok (cpa : Bool) (dbg : String) (as : List String) (s0 : Scope)
    (w0 : World) (h : assign_to cpa dbg as s0 = .ok w0) :
    w0 = { scope := installAliases cpa dbg as 0 s0,
           obj := none, running := [], calls := 0 } := by
  by_cases he : as.isEmpty
  · simp [assign_to, he] at h
  · simp [assign_to, he] at h
    exact h.symm

/-! ### Build-once machinery -/

theorem once_read_step (cfg : Config) (as : List String) (v : Value)
    (w : World) (a : String)
    (hcache : cfg.cache = true) (hf : cfg.factory 0 = .ok v)
    (hinv : OnceInv as v w) (ha : a ∈ as) :
    (readAlias cfg w a).1 = .ok (.value v) ∧
    OnceInv as v (readAlias cfg w a).2 ∧
    (readAlias cfg w a).2.obj = some v ∧
    (readAlias cfg w a).2.calls = 1 := by
  obtain ⟨hrun, hphase, hslots⟩ := hinv
  obtain ⟨e, sv, hslot, hea, hcpa⟩ := hslots a ha
  subst hea
  have hcreate :
      ∃ wc, create cfg w e = (.ok (), wc) ∧ wc.scope = w.scope ∧
        wc.obj = some v ∧ wc.calls = 1 ∧ wc.running = w.running := by
    rcases hphase with ⟨hobj, hcalls⟩ | ⟨hobj, hcalls⟩
    · refine ⟨{ w with obj := some v, calls := w.calls + 1 },
        ?_, rfl, rfl, by simp [hcalls], rfl⟩
      exact create_fresh_ok cfg w e v (by simp [hobj]) (by simp [hrun])
        (hcalls ▸ hf)
    · exact ⟨w, create_cached cfg w e v hobj hcache, rfl, hobj, hcalls, rfl⟩
  obtain ⟨wc, hc, hcs, hco, hcc, hcr⟩ := hcreate
  have hread := readAlias_armed_dyn cfg w wc e sv v hslot hcpa hc hco
  rw [hread]
  refine ⟨rfl, ⟨by simp [hcr, hrun], Or.inr ⟨hco, hcc⟩, ?_⟩, hco, hcc⟩
  intro b hb
  by_cases hba : b = e.aliasName
  · subst hba
    exact ⟨e, .value v, lookupScope_insert_self _ _ _, rfl, hcpa⟩
  · obtain ⟨e', sv', h1, h2, h3⟩ := hslots b hb
    refine ⟨e', sv', ?_, h2, h3⟩
    show lookupScope (insertScope wc.scope e.aliasName _) b = _
    rw [lookupScope_insert_ne _ _ _ _ (fun h => hba h.symm), hcs]
    exact h1

theorem readMany_cons (cfg : Config) (w : World) (a : String)
    (rest : List String) :
    readMany cfg w (a :: rest)
      = ((readAlias cfg w a).1
           :: (readMany cfg (readAlias cfg w a).2 rest).1,
         (readMany cfg (readAlias cfg w a).2 rest).2) := rfl

theorem once_read_fold (cfg : Config) (as : List String) (v : Value)
    (hcache : cfg.cache = true) (hf : cfg.factory 0 = .ok v) :
    ∀ (rs : List String) (w : World), OnceInv as v w → (∀ r ∈ rs, r ∈ as) →
      (readMany cfg w rs).1 = rs.map (fun _ => .ok (.value v)) ∧
      OnceInv as v (readMany cfg w rs).2 ∧
      (rs ≠ [] →
        (readMany cfg w rs).2.obj = some v ∧
        (readMany cfg w rs).2.calls = 1) := by
  intro rs
  induction rs with
  | nil => intro w hinv _; exact ⟨rfl, hinv, fun h => absurd rfl h⟩
  | cons a rest ih =>
    intro w hinv hmem
    obtain ⟨h1, hinv1, hobj1, hcalls1⟩ :=
      once_read_step cfg as v w a hcache hf hinv (hmem a (by simp))
    obtain ⟨h2, hinv2, h3⟩ :=
      ih (readAlias cfg w a).2 hinv1 (fun r hr => hmem r (by simp [hr]))
    refine ⟨by simp [readMany_cons, h1, h2], by rw [readMany_cons]; exact hinv2, ?_⟩
    intro _
    by_cases hrest : rest = []
    · subst hrest
      exact ⟨hobj1, hcalls1⟩
    · rw [readMany_cons]
      exact h3 hrest

end Injection

/-! ### Claim C1 -/

namespace Injection

/-- **C1**: for every attachment made with build-once policy
(`cache = True`) binding a non-empty set of aliases to one shared factory,
in single-threaded execution the factory is invoked exactly once in total
across the first reads of all those aliases and any number of subsequent
re-reads, and every alias read yields the same stored value. -/
theorem c1_build_once_shared_factory (cfg : Config) (dbg : String)
    (as rs : List String) (s0 : Scope) (w0 : World) (v : Value)
    (hattach : assign_to false dbg as s0 = .ok w0)
    (hcache : cfg.cache = true) (hf : cfg.factory 0 = .ok v)
    (hrs : ∀ r ∈ rs, r ∈ as) (hne : rs ≠ []) :
    (readMany cfg w0 rs).1 = rs.map (fun _ => .ok (.value v)) ∧
    (readMany cfg w0 rs).2.calls = 1 ∧
    (readMany cfg w0 rs).2.obj = some v := by
  have hw0 := assign_to_ok false dbg as s0 w0 hattach
  have hinv : OnceInv as v w0 := by
    subst hw0
    refine ⟨rfl, Or.inl ⟨rfl, rfl⟩, ?_⟩
    intro a ha
    obtain ⟨e, h1, h2, h3⟩ := installAliases_mem false dbg as a ha 0 s0
    exact ⟨e, .earlyObj e, h1, h2, h3⟩
  obtain ⟨h1, _, h3⟩ := once_read_fold cfg as v hcache hf rs w0 hinv hrs
  exact ⟨h1, (h3 hne).2, (h3 hne).1⟩

/-- Witness for C1: two aliases `"a"`, `"b"` sharing one counting-style
factory under build-once policy; reading `"a"`, `"b"`, `"a"` yields the
shared value three times with exactly one factory call. -/
theorem c1_build_once_shared_factory_witness :
    assign_to false "f" ["a", "b"] [] = .ok wAB ∧
    ((readMany onceCfg wAB ["a", "b", "a"]).1
        = ["a", "b", "a"].map (fun _ => .ok (.value (.str "shared"))) ∧
      (readMany onceCfg wAB ["a", "b", "a"]).2.calls = 1 ∧
      (readMany onceCfg wAB ["a", "b", "a"]).2.obj = some (.str "shared")) :=
  ⟨rfl,
   c1_build_once_shared_factory onceCfg "f" ["a", "b"] ["a", "b", "a"] []
     wAB (.str "shared") rfl rfl rfl (by decide) (by decide)⟩

end Injection

/-! ### Rebuild-every-access machinery -/

namespace Injection

/-- One triggering read in dynamic mode under rebuild-every-access policy:
the factory runs once more and the trapping key is re-armed. -/
theorem dyn_read_step (cfg : Config) (w : World) (a : String) (e : Early)
    (sv : SlotVal) (v : Value)
    (hea : e.aliasName = a)
    (hslot : lookupScope w.scope a = some ⟨.injKey false e, sv⟩)
    (hcpa : e.cachePerAlias = false)
    (hrun : w.running = [])
    (hcache : cfg.cache = false)
    (hf : cfg.factory w.calls = .ok v) :
    readAlias cfg w a
      = (.ok (.value v),
         { scope := insertScope w.scope a ⟨.injKey false e, .value v⟩,
           obj := some v, running := w.running, calls := w.calls + 1 }) := by
  subst hea
  exact readAlias_armed_dyn cfg w _ e sv v hslot hcpa
    (create_fresh_ok cfg w e v (by simp [hcache]) (by simp [hrun]) hf) rfl

/-- One triggering read in frozen mode (`cache_per_alias = True`): the
factory runs and the scope ends with a plain entry. -/
theorem frozen_read_step (cfg : Config) (w : World) (a : String) (e : Early)
    (sv : SlotVal) (v : Value)
    (hea : e.aliasName = a)
    (hslot : lookupScope w.scope a = some ⟨.injKey false e, sv⟩)
    (hcpa : e.cachePerAlias = true)
    (hrun : w.running = [])
    (hcache : cfg.cache = false)
    (hf : cfg.factory w.calls = .ok v) :
    readAlias cfg w a
      = (.ok (.value v),
         { scope := insertScope w.scope a ⟨.plain, .value v⟩,
           obj := some v, running := w.running, calls := w.calls + 1 }) := by
  subst hea
  exact readAlias_armed_frozen cfg w _ e sv v hslot hcpa
    (create_fresh_ok cfg w e v (by simp [hcache]) (by simp [hrun]) hf) rfl

/-- Reads of a plain entry are pure dict hits: same result every time, the
world never changes and the factory is never invoked again. -/
theorem plain_read_fixpoint (cfg : Config) (w : World) (a : String)
    (sv : SlotVal)
    (hslot : lookupScope w.scope a = some ⟨.plain, sv⟩) :
    ∀ n, (readMany cfg w (List.replicate n a)).1
        = List.replicate n (.ok (slotResult sv)) ∧
      (readMany cfg w (List.replicate n a)).2 = w := by
  intro n
  induction n with
  | zero => exact ⟨rfl, rfl⟩
  | succ m ih =>
    rw [List.replicate_succ, readMany_cons, readAlias_plain cfg w a sv hslot]
    exact ⟨by rw [List.replicate_succ]; exact congrArg _ ih.1, ih.2⟩

end Injection

/-! ### Claim C2 -/

namespace Injection

/-- **C2**: attaching alias `a` (defaults: `cache = False`,
`cache_per_alias = False`) with a factory constantly returning `v` never
invokes the factory during the attachment call; the first read of the alias
invokes it, after which the scope holds `v` under the alias; a second read
returns the identical value and leaves the scope entry unchanged. -/
theorem c2_attach_then_lazy_read (cfg : Config) (dbg a : String)
    (w0 : World) (v : Value)
    (hattach : assign_to false dbg [a] [] = .ok w0)
    (hcache : cfg.cache = false)
    (hf : ∀ k, cfg.factory k = .ok v) :
    w0.calls = 0 ∧ w0.obj = none ∧
    (readAlias cfg w0 a).1 = .ok (.value v) ∧
    (readAlias cfg w0 a).2.calls = 1 ∧
    lookupScope (readAlias cfg w0 a).2.scope a
      = some ⟨.injKey false (mkEarly a false 0 dbg), .value v⟩ ∧
    (readAlias cfg (readAlias cfg w0 a).2 a).1 = .ok (.value v) ∧
    lookupScope (readAlias cfg (readAlias cfg w0 a).2 a).2.scope a
      = lookupScope (readAlias cfg w0 a).2.scope a := by
  have hw0 := assign_to_ok false dbg [a] [] w0 hattach
  subst hw0
  have hslot1 : lookupScope (installAliases false dbg [a] 0 []) a
      = some ⟨.injKey false (mkEarly a false 0 dbg),
              .earlyObj (mkEarly a false 0 dbg)⟩ := by
    simp only [installAliases]
    exact lookupScope_insert_self _ _ _
  have h1 := dyn_read_step cfg
      { scope := installAliases false dbg [a] 0 [],
        obj := none, running := [], calls := 0 }
      a (mkEarly a false 0 dbg) (.earlyObj (mkEarly a false 0 dbg)) v
      rfl hslot1 rfl rfl hcache (hf 0)
  rw [h1]
  have hslot2 := lookupScope_insert_self
      (installAliases false dbg [a] 0 []) a
      (⟨.injKey false (mkEarly a false 0 dbg), .value v⟩ : Slot)
  have h2 := dyn_read_step cfg
      { scope := insertScope (installAliases false dbg [a] 0 []) a
          ⟨.injKey false (mkEarly a false 0 dbg), .value v⟩,
        obj := some v, running := [], calls := 1 }
      a (mkEarly a false 0 dbg) (.value v) v
      rfl hslot2 rfl rfl hcache (hf 1)
  rw [h2]
  refine ⟨rfl, rfl, rfl, rfl, lookupScope_insert_self _ _ _, rfl, ?_⟩
  rw [lookupScope_insert_self, lookupScope_insert_self]

/-- Witness for C2: alias `"x"`, empty scope, constant factory `"v"`. -/
theorem c2_attach_then_lazy_read_witness :
    assign_to false "f" ["x"] [] = .ok (wX false) ∧
    ((wX false).calls = 0 ∧ (wX false).obj = none ∧
     (readAlias constCfg (wX false) "x").1 = .ok (.value (.str "v")) ∧
     (readAlias constCfg (wX false) "x").2.calls = 1 ∧
     lookupScope (readAlias constCfg (wX false) "x").2.scope "x"
       = some ⟨.injKey false (mkEarly "x" false 0 "f"), .value (.str "v")⟩ ∧
     (readAlias constCfg (readAlias constCfg (wX false) "x").2 "x").1
       = .ok (.value (.str "v")) ∧
     lookupScope
         (readAlias constCfg (readAlias constCfg (wX false) "x").2 "x").2.scope
         "x"
       = lookupScope (readAlias constCfg (wX false) "x").2.scope "x") :=
  ⟨rfl, c2_attach_then_lazy_read constCfg "f" "x" (wX false) (.str "v")
    rfl rfl (fun _ => rfl)⟩

end Injection

/-! ### Claims C3 and C4 -/

namespace Injection

theorem range_map_shift_nodup (f : Nat → Value) (c n : Nat)
    (hinj : Function.Injective f) :
    ((List.range n).map (fun i => f (c + i))).Nodup := by
  refine List.Nodup.map ?_ (List.nodup_range n)
  intro i j hij
  have := hinj hij
  omega

theorem dyn_read_fold (cfg : Config) (f : Nat → Value)
    (hcache : cfg.cache = false)
    (hf : ∀ k, cfg.factory k = .ok (f k)) :
    ∀ (n : Nat) (w : World) (a : String) (e : Early) (sv : SlotVal),
      e.aliasName = a →
      lookupScope w.scope a = some ⟨.injKey false e, sv⟩ →
      e.cachePerAlias = false → w.running = [] →
      (readMany cfg w (List.replicate n a)).1
        = (List.range n).map (fun i => .ok (.value (f (w.calls + i)))) ∧
      (readMany cfg w (List.replicate n a)).2.calls = w.calls + n := by
  intro n
  induction n with
  | zero => intro w a e sv _ _ _ _; exact ⟨rfl, rfl⟩
  | succ m ih =>
    intro w a e sv hea hslot hcpa hrun
    have h1 := dyn_read_step cfg w a e sv (f w.calls) hea hslot hcpa hrun
      hcache (hf w.calls)
    obtain ⟨ih1, ih2⟩ := ih
      { scope := insertScope w.scope a ⟨.injKey false e, .value (f w.calls)⟩,
        obj := some (f w.calls), running := w.running, calls := w.calls + 1 }
      a e (.value (f w.calls)) hea (lookupScope_insert_self _ _ _) hcpa hrun
    have harith : ∀ i : Nat, w.calls + 1 + i = w.calls + (i + 1) :=
      fun i => by omega
    constructor
    · simp only [List.replicate_succ, readMany_cons, h1]
      rw [ih1]
      simp [List.range_succ_eq_map, List.map_map, Function.comp, harith]
    · simp only [List.replicate_succ, readMany_cons, h1]
      rw [ih2]
      show w.calls + 1 + m = w.calls + (m + 1)
      omega

/-- **C3**: an alias attached with rebuild-every-access policy
(`cache = False`) and per-alias dynamic re-triggering (the
`cache_per_alias = False` branch of `__inject__`, which reinstalls the
equality-trapping key after every successful read): every read invokes the
factory again and yields that call's value, so a factory producing
pairwise-distinct values produces a new value on each read. -/
theorem c3_dynamic_rebuilds_every_read (cfg : Config) (w : World)
    (a : String) (e : Early) (sv : SlotVal) (f : Nat → Value) (n : Nat)
    (hea : e.aliasName = a)
    (hslot : lookupScope w.scope a = some ⟨.injKey false e, sv⟩)
    (hcpa : e.cachePerAlias = false)
    (hrun : w.running = [])
    (hcache : cfg.cache = false)
    (hf : ∀ k, cfg.factory k = .ok (f k)) :
    (readMany cfg w (List.replicate n a)).1
      = (List.range n).map (fun i => .ok (.value (f (w.calls + i)))) ∧
    (readMany cfg w (List.replicate n a)).2.calls = w.calls + n ∧
    (Function.Injective f →
      ((List.range n).map (fun i => f (w.calls + i))).Nodup) := by
  obtain ⟨h1, h2⟩ := dyn_read_fold cfg f hcache hf n w a e sv hea hslot hcpa hrun
  exact ⟨h1, h2, fun hinj => range_map_shift_nodup f w.calls n hinj⟩

/-- Witness for C3: a counting factory behind alias `"x"`; two successive
reads yield `injected_object_1` then `injected_object_2`, with two factory
invocations. -/
theorem c3_dynamic_rebuilds_every_read_witness :
    (readMany countCfg (wX false) (List.replicate 2 "x")).1
      = [.ok (.value (.str "injected_object_1")),
         .ok (.value (.str "injected_object_2"))] ∧
    (readMany countCfg (wX false) (List.replicate 2 "x")).2.calls = 2 := by
  have h := c3_dynamic_rebuilds_every_read countCfg (wX false) "x"
      (earlyW "x" false 0) (.earlyObj (earlyW "x" false 0))
      (fun k => .str ("injected_object_" ++ toString (k + 1))) 2
      rfl rfl rfl rfl rfl (fun _ => rfl)
  refine ⟨?_, ?_⟩
  · rw [h.1]; rfl
  · rw [h.2.1]; rfl

/-- **C4**: an alias attached with rebuild-every-access policy
(`cache = False`) but without per-alias dynamic re-triggering
(`cache_per_alias = True`): the first successful read builds the value and
freezes it at the handle/key level by installing a plain scope entry, so
every subsequent read returns the identical stored value with no further
factory invocation and no interception. -/
theorem c4_frozen_without_dynamic (cfg : Config) (w : World) (a : String)
    (e : Early) (sv : SlotVal) (v : Value)
    (hea : e.aliasName = a)
    (hslot : lookupScope w.scope a = some ⟨.injKey false e, sv⟩)
    (hcpa : e.cachePerAlias = true)
    (hrun : w.running = [])
    (hcache : cfg.cache = false)
    (hf : cfg.factory w.calls = .ok v) :
    (readAlias cfg w a).1 = .ok (.value v) ∧
    (readAlias cfg w a).2.calls = w.calls + 1 ∧
    lookupScope (readAlias cfg w a).2.scope a = some ⟨.plain, .value v⟩ ∧
    ∀ n,
      (readMany cfg (readAlias cfg w a).2 (List.replicate n a)).1
        = List.replicate n (.ok (.value v)) ∧
      (readMany cfg (readAlias cfg w a).2 (List.replicate n a)).2
        = (readAlias cfg w a).2 := by
  have h1 := frozen_read_step cfg w a e sv v hea hslot hcpa hrun hcache hf
  rw [h1]
  refine ⟨rfl, rfl, lookupScope_insert_self _ _ _, ?_⟩
  intro n
  exact plain_read_fixpoint cfg
    { scope := insertScope w.scope a ⟨.plain, .value v⟩,
      obj := some v, running := w.running, calls := w.calls + 1 }
    a (.value v) (lookupScope_insert_self _ _ _) n

/-- Witness for C4: alias `"x"` in frozen mode with a constant factory;
the first read builds `"v"`, installs a plain entry, and one further read
returns the identical value leaving the world untouched. -/
theorem c4_frozen_without_dynamic_witness :
    (readAlias constCfg (wX true) "x").1 = .ok (.value (.str "v")) ∧
    (readAlias constCfg (wX true) "x").2.calls = (wX true).calls + 1 ∧
    lookupScope (readAlias constCfg (wX true) "x").2.scope "x"
      = some ⟨.plain, .value (.str "v")⟩ ∧
    ((readMany constCfg (readAlias constCfg (wX true) "x").2
        (List.replicate 1 "x")).1
      = List.replicate 1 (.ok (.value (.str "v"))) ∧
     (readMany constCfg (readAlias constCfg (wX true) "x").2
        (List.replicate 1 "x")).2
      = (readAlias constCfg (wX true) "x").2) := by
  have h := c4_frozen_without_dynamic constCfg (wX true) "x"
      (earlyW "x" true 0) (.earlyObj (earlyW "x" true 0)) (.str "v")
      rfl rfl rfl rfl rfl rfl
  exact ⟨h.1, h.2.1, h.2.2.1, h.2.2.2 1⟩

end Injection

/-! ### Claim C5 -/

namespace Injection

/-- **C5 counterexample**: the claim says *both* public entry points raise
a validation error on zero aliases, but the imperative `inject` form guards
`assign_to` behind `if into is not None and aliases:` — with zero aliases
and a target scope it returns normally, attaching nothing and raising
nothing. -/
theorem c5_counterexample_inject_zero_aliases :
    inject false "<injection>" [] (some []) = .ok .noop ∧
    ∀ ex : Err, inject false "<injection>" [] (some []) ≠ .error ex := by
  refine ⟨rfl, fun ex h => ?_⟩
  rw [show inject false "<injection>" [] (some [])
        = (.ok .noop : Except Err InjectOutcome) from rfl] at h
  cases h

/-- **C5 amended**: `Injection.assign_to` with zero aliases raises the
validation error before any scope mutation (the error is returned with no
world created, the target scope untouched), while the imperative `inject`
form with zero aliases performs no attachment at all: it mutates nothing
and raises nothing. -/
theorem c5_amended_zero_alias_validation (cpa : Bool) (dbg : String)
    (s : Scope) :
    assign_to cpa dbg [] s
      = .error (.valueError
          ("expected at least one alias in Injection.assign_to() ("
            ++ dbg ++ ")")) ∧
    inject cpa dbg [] (some s) = .ok .noop :=
  ⟨rfl, rfl⟩

end Injection

/-! ### Claims C6 and C7 -/

namespace Injection

/-- **C6**: when the factory raises during materialization, that exact
exception (same constructor, same message, no wrapping) propagates to the
caller of the triggering scope read, and the record's in-flight token set
is empty again afterwards: the `(id(early), thread)` token added before the
factory call was removed by the `finally` clause even though the factory
raised.  The call counter advanced: the factory really was invoked. -/
theorem c6_factory_error_propagates (cfg : Config) (w : World) (a : String)
    (e : Early) (sv : SlotVal) (ex : Err)
    (hea : e.aliasName = a)
    (hslot : lookupScope w.scope a = some ⟨.injKey false e, sv⟩)
    (hrun : w.running = [])
    (hcond : (w.obj.isNone || !cfg.cache) = true)
    (hf : cfg.factory w.calls = .error ex) :
    (readAlias cfg w a).1 = .error ex ∧
    (readAlias cfg w a).2.running = [] ∧
    (e.id, cfg.tid) ∉ (readAlias cfg w a).2.running ∧
    (readAlias cfg w a).2.calls = w.calls + 1 := by
  subst hea
  have hc := create_fresh_err cfg w e ex hcond (by simp [hrun]) hf
  have hr := readAlias_armed_err cfg w _ e sv ex hslot hc
  rw [hr]
  exact ⟨rfl, hrun, by simp [hrun], rfl⟩

/-- Witness for C6: a factory raising `ValueError("Factory error")` behind
alias `"x"`; the read reports exactly that error and the in-flight set is
empty. -/
theorem c6_factory_error_propagates_witness :
    (readAlias failCfg (wX false) "x").1
      = .error (.valueError "Factory error") ∧
    (readAlias failCfg (wX false) "x").2.running = [] ∧
    ((earlyW "x" false 0).id, failCfg.tid)
        ∉ (readAlias failCfg (wX false) "x").2.running ∧
    (readAlias failCfg (wX false) "x").2.calls = (wX false).calls + 1 :=
  c6_factory_error_propagates failCfg (wX false) "x" (earlyW "x" false 0)
    (.earlyObj (earlyW "x" false 0)) (.valueError "Factory error")
    rfl rfl rfl rfl rfl

/-- **C7**: after a read during which the factory raised, the scope is
exactly as it was — the alias still maps to the untriggered placeholder
and no constructed value (half-installed or otherwise) sits under it. -/
theorem c7_failed_read_installs_nothing (cfg : Config) (w : World)
    (a : String) (e : Early) (ex : Err)
    (hea : e.aliasName = a)
    (hslot : lookupScope w.scope a = some ⟨.injKey false e, .earlyObj e⟩)
    (hrun : w.running = [])
    (hcond : (w.obj.isNone || !cfg.cache) = true)
    (hf : cfg.factory w.calls = .error ex) :
    (readAlias cfg w a).2.scope = w.scope ∧
    lookupScope (readAlias cfg w a).2.scope a
      = some ⟨.injKey false e, .earlyObj e⟩ ∧
    ∀ (kp : KeyPart) (v : Value),
      lookupScope (readAlias cfg w a).2.scope a ≠ some ⟨kp, .value v⟩ := by
  subst hea
  have hc := create_fresh_err cfg w e ex hcond (by simp [hrun]) hf
  have hr := readAlias_armed_err cfg w _ e (.earlyObj e) ex hslot hc
  have hscope : (readAlias cfg w e.aliasName).2.scope = w.scope := by rw [hr]
  refine ⟨hscope, by rw [hscope]; exact hslot, ?_⟩
  intro kp v h
  rw [hscope, hslot] at h
  simp at h

/-- Witness for C7: after the failed read of `"x"`, the scope still holds
the placeholder and no value. -/
theorem c7_failed_read_installs_nothing_witness :
    (readAlias failCfg (wX false) "x").2.scope = (wX false).scope ∧
    lookupScope (readAlias failCfg (wX false) "x").2.scope "x"
      = some ⟨.injKey false (earlyW "x" false 0),
              .earlyObj (earlyW "x" false 0)⟩ ∧
    ∀ (kp : KeyPart) (v : Value),
      lookupScope (readAlias failCfg (wX false) "x").2.scope "x"
        ≠ some ⟨kp, .value v⟩ :=
  c7_failed_read_installs_nothing failCfg (wX false) "x"
    (earlyW "x" false 0) (.valueError "Factory error") rfl rfl rfl rfl rfl

end Injection

/-! ### Claims C8, C9 and C10 -/

namespace Injection

/-- **C8**: when the same thread re-enters materialization for a handle
whose `(id(early), thread)` token is already in flight, the factory is not
invoked — `create` returns whatever the recursion guard produces and
leaves the record untouched (call counter included) — and under the strict
policy that is a `RecursionError` whose message names the handle. -/
theorem c8_reentrant_strict_guard (cfg : Config) (w : World) (e : Early)
    (hcond : (w.obj.isNone || !cfg.cache) = true)
    (hrk : (e.id, cfg.tid) ∈ w.running) :
    create cfg w e = (cfg.guard e, w) ∧
    (cfg.guard = strict_recursion_guard →
      create cfg w e
        = (.error (.recursionError (earlyRepr e ++ " requested itself")),
           w)) := by
  have h := create_inflight cfg w e hcond hrk
  exact ⟨h, fun hg => by rw [h, hg]; rfl⟩

/-- Witness for C8: strict guard, token `(5, 0)` already in flight for the
handle with alias `"x"`; `create` raises the recursion error whose message
carries the handle's debug label naming `'x'`, with the record unchanged. -/
theorem c8_reentrant_strict_guard_witness :
    create constCfg
        ⟨[], none, [((earlyW "x" false 5).id, constCfg.tid)], 0⟩
        (earlyW "x" false 5)
      = (.error (.recursionError
          (earlyRepr (earlyW "x" false 5) ++ " requested itself")),
         ⟨[], none, [((earlyW "x" false 5).id, constCfg.tid)], 0⟩) ∧
    earlyRepr (earlyW "x" false 5) ++ " requested itself"
      = "<EarlyObject ('x' from f before __inject__())> requested itself" := by
  have h := c8_reentrant_strict_guard constCfg
      ⟨[], none, [((earlyW "x" false 5).id, constCfg.tid)], 0⟩
      (earlyW "x" false 5) rfl (by simp)
  exact ⟨h.2 rfl, rfl⟩

/-- **C9**: a materialization that completes stores its result in the
record and installs it in the scope even when the factory returned a falsy
value: the "not yet built" sentinel is distinct from every legal value
(`some v ≠ none` for all `v`, including the model of Python `None`). -/
theorem c9_falsy_results_are_stored (cfg : Config) (w : World) (a : String)
    (e : Early) (sv : SlotVal) (v : Value)
    (hea : e.aliasName = a)
    (hslot : lookupScope w.scope a = some ⟨.injKey false e, sv⟩)
    (hrun : w.running = [])
    (hcond : (w.obj.isNone || !cfg.cache) = true)
    (hf : cfg.factory w.calls = .ok v) :
    (readAlias cfg w a).1 = .ok (.value v) ∧
    (readAlias cfg w a).2.obj = some v ∧
    (readAlias cfg w a).2.obj ≠ none ∧
    ∃ kp, lookupScope (readAlias cfg w a).2.scope a
        = some ⟨kp, .value v⟩ := by
  subst hea
  have hc := create_fresh_ok cfg w e v hcond (by simp [hrun]) hf
  by_cases hcpa : e.cachePerAlias = true
  · have hr := readAlias_armed_frozen cfg w _ e sv v hslot hcpa hc rfl
    rw [hr]
    exact ⟨rfl, rfl, by simp, ⟨.plain, lookupScope_insert_self _ _ _⟩⟩
  · have hcpa' : e.cachePerAlias = false := by
      revert hcpa
      cases e.cachePerAlias <;> simp
    have hr := readAlias_armed_dyn cfg w _ e sv v hslot hcpa' hc rfl
    rw [hr]
    exact ⟨rfl, rfl, by simp,
      ⟨.injKey false e, lookupScope_insert_self _ _ _⟩⟩

/-- Witness for C9: a factory returning Python `None` behind alias `"x"`;
the read yields `None`, the record stores it (≠ sentinel), and the scope
holds it under the alias. -/
theorem c9_falsy_results_are_stored_witness :
    (readAlias noneCfg (wX false) "x").1 = .ok (.value .noneV) ∧
    (readAlias noneCfg (wX false) "x").2.obj = some .noneV ∧
    (readAlias noneCfg (wX false) "x").2.obj ≠ none ∧
    ∃ kp, lookupScope (readAlias noneCfg (wX false) "x").2.scope "x"
        = some ⟨kp, .value .noneV⟩ :=
  c9_falsy_results_are_stored noneCfg (wX false) "x" (earlyW "x" false 0)
    (.earlyObj (earlyW "x" false 0)) .noneV rfl rfl rfl rfl rfl

/-- **C10**: `peek` takes no factory at all, so it cannot invoke one; on
any at-rest scope (no slot still carrying a set one-shot `reset` flag —
completed reads never leave one behind) it returns the world unchanged,
reporting the installed placeholder when an armed injection key sits under
the alias and `None` when no such placeholder is present. -/
theorem c10_peek_is_effect_free (w : World) (a : String)
    (hrest : ∀ e sv, lookupScope w.scope a ≠ some ⟨.injKey true e, sv⟩) :
    (peek w a).2 = w ∧
    (∀ e sv, lookupScope w.scope a = some ⟨.injKey false e, sv⟩ →
      (peek w a).1 = some e) ∧
    ((∀ e sv, lookupScope w.scope a ≠ some ⟨.injKey false e, sv⟩) →
      (peek w a).1 = none) := by
  have h2 : (peek w a).2 = w := by
    rcases hl : lookupScope w.scope a with _ | ⟨kp, sv⟩
    · simp [peek, hl]
    · match kp, hl with
      | .plain, hl => simp [peek, hl]
      | .injKey true e, hl => exact absurd hl (hrest e sv)
      | .injKey false e, hl => simp [peek, hl]
  have hsome : ∀ e sv, lookupScope w.scope a = some ⟨.injKey false e, sv⟩ →
      (peek w a).1 = some e := by
    intro e sv h
    simp [peek, h]
  have hnone : (∀ e sv, lookupScope w.scope a ≠ some ⟨.injKey false e, sv⟩) →
      (peek w a).1 = none := by
    intro hno
    rcases hl : lookupScope w.scope a with _ | ⟨kp, sv⟩
    · simp [peek, hl]
    · match kp, hl with
      | .plain, hl => simp [peek, hl]
      | .injKey true e, hl => exact absurd hl (hrest e sv)
      | .injKey false e, hl => exact absurd hl (hno e sv)
  exact ⟨h2, hsome, hnone⟩

/-- Witness for C10: peeking at alias `"x"` holding an untriggered
injection returns the installed placeholder and leaves the world
unchanged. -/
theorem c10_peek_is_effect_free_witness :
    (peek (wX false) "x").2 = wX false ∧
    (peek (wX false) "x").1 = some (earlyW "x" false 0) := by
  have h := c10_peek_is_effect_free (wX false) "x" (by
    intro e sv hcontra
    rw [show lookupScope (wX false).scope "x"
          = some (armedSlotW "x" false 0) from rfl] at hcontra
    simp [armedSlotW] at hcontra)
  exact ⟨h.1, h.2.1 (earlyW "x" false 0) (.earlyObj (earlyW "x" false 0)) rfl⟩

end Injection

/-! ### The at-rest invariant behind C10's hypothesis -/

namespace Injection

theorem lookupScope_erase_self (s : Scope) (a : String) :
    lookupScope (eraseScope s a) a = none := by
  induction s with
  | nil => rfl
  | cons hd tl ih =>
    obtain ⟨c, sl⟩ := hd
    by_cases hc : c = a <;> simp [eraseScope, lookupScope, hc, ih]

theorem create_scope (cfg : Config) (w : World) (e : Early) :
    (create cfg w e).2.scope = w.scope := by
  unfold create
  by_cases h1 : (w.obj.isNone || !cfg.cache) = true
  · simp only [h1, if_true]
    by_cases h2 : (e.id, cfg.tid) ∈ w.running
    · simp [h2]
    · cases hf : cfg.factory w.calls <;> simp [h2, hf]
  · simp [h1]

/-- A triggering read during which `create` returns without building a
value (the lenient recursion guard's short-circuit): `__inject__` removes
the alias and returns, so the restarted probe raises `KeyError` and the
alias ends absent — the behaviour behind the repository's
`test_injection_recursive_guard` falling back to `dict.get`'s default. -/
theorem readAlias_armed_sentinel (cfg : Config) (w wc : World) (e : Early)
    (sv : SlotVal)
    (hslot : lookupScope w.scope e.aliasName = some ⟨.injKey false e, sv⟩)
    (hcreate : create cfg w e = (.ok (), wc))
    (hobj : wc.obj = none) :
    readAlias cfg w e.aliasName
      = (.error .keyError,
         { wc with scope := eraseScope wc.scope e.aliasName }) := by
  have hstep : injectStep cfg w e
      = (.ok (), { wc with scope := eraseScope wc.scope e.aliasName }) := by
    simp only [injectStep, hcreate, hobj]
  simp only [readAlias, hslot, hstep, lookupScope_erase_self]

theorem atRest_erase (s : Scope) (a : String) (h : AtRestS s) :
    AtRestS (eraseScope s a) := by
  intro b r e sv hb
  by_cases hba : b = a
  · subst hba
    rw [lookupScope_erase_self] at hb
    cases hb
  · rw [lookupScope_erase_ne s a b (Ne.symm hba)] at hb
    exact h b r e sv hb

theorem atRest_insert_plain (s : Scope) (a : String) (sv : SlotVal)
    (h : AtRestS s) : AtRestS (insertScope s a ⟨.plain, sv⟩) := by
  intro b r e sv' hb
  by_cases hba : b = a
  · subst hba
    rw [lookupScope_insert_self] at hb
    simp at hb
  · rw [lookupScope_insert_ne s a b _ (Ne.symm hba)] at hb
    exact h b r e sv' hb

theorem atRest_insert_armed (s : Scope) (a : String) (e : Early)
    (sv : SlotVal) (hea : e.aliasName = a) (h : AtRestS s) :
    AtRestS (insertScope s a ⟨.injKey false e, sv⟩) := by
  intro b r e' sv' hb
  by_cases hba : b = a
  · subst hba
    rw [lookupScope_insert_self] at hb
    simp only [Option.some.injEq, Slot.mk.injEq, KeyPart.injKey.injEq] at hb
    obtain ⟨⟨hr, he⟩, -⟩ := hb
    subst he
    exact ⟨hea, hr.symm⟩
  · rw [lookupScope_insert_ne s a b _ (Ne.symm hba)] at hb
    exact h b r e' sv' hb

theorem installAliases_atRest (cpa : Bool) (dbg : String) :
    ∀ (as : List String) (i : Nat) (s : Scope), AtRestS s →
      AtRestS (installAliases cpa dbg as i s) := by
  intro as
  induction as with
  | nil => intro i s h; exact h
  | cons a rest ih =>
    intro i s h
    simp only [installAliases]
    exact ih (i + 1) _ (atRest_insert_armed (eraseScope s a) a
      (mkEarly a cpa i dbg) (.earlyObj (mkEarly a cpa i dbg)) rfl
      (atRest_erase s a h))

/-- `assign_to` only builds at-rest scopes (from at-rest scopes). -/
theorem assign_to_atRest (cpa : Bool) (dbg : String) (as : List String)
    (s0 : Scope) (w0 : World) (h0 : AtRestS s0)
    (h : assign_to cpa dbg as s0 = .ok w0) : AtRestS w0.scope := by
  rw [assign_to_ok cpa dbg as s0 w0 h]
  exact installAliases_atRest cpa dbg as 0 s0 h0

/-- Completed top-level reads keep the scope at rest: in particular, no
read ever leaves behind a slot with its one-shot `reset` flag set — the
flag written during `__inject__` is consumed by the same read's restarted
probe.  This is the invariant that discharges C10's hypothesis on every
single-threaded reachable state. -/
theorem readAlias_preserves_atRest (cfg : Config) (w : World) (a : String)
    (hw : AtRestS w.scope) : AtRestS (readAlias cfg w a).2.scope := by
  rcases hl : lookupScope w.scope a with _ | ⟨kp, sv⟩
  · simp only [readAlias, hl]
    exact hw
  · match kp, hl with
    | .plain, hl =>
      simp only [readAlias, hl]
      exact hw
    | .injKey true e, hl =>
      exact absurd (hw a true e sv hl).2 (by simp)
    | .injKey false e, hl =>
      have hea : e.aliasName = a := (hw a false e sv hl).1
      subst hea
      rcases hc : create cfg w e with ⟨r, wc⟩
      have hwc : wc.scope = w.scope := by
        have h0 := create_scope cfg w e
        rw [hc] at h0
        exact h0
      have hwr : AtRestS wc.scope := by rw [hwc]; exact hw
      match r, hc with
      | .error ex, hc =>
        rw [readAlias_armed_err cfg w wc e sv ex hl hc]
        exact hwr
      | .ok u, hc =>
        cases u
        rcases ho : wc.obj with _ | v
        · rw [readAlias_armed_sentinel cfg w wc e sv hl hc ho]
          exact atRest_erase _ _ hwr
        · by_cases hcpa : e.cachePerAlias = true
          · rw [readAlias_armed_frozen cfg w wc e sv v hl hcpa hc ho]
            exact atRest_insert_plain _ _ _ hwr
          · have hcpa' : e.cachePerAlias = false := by
              revert hcpa
              cases e.cachePerAlias <;> simp
            rw [readAlias_armed_dyn cfg w wc e sv v hl hcpa' hc ho]
            exact atRest_insert_armed _ _ _ _ rfl hwr

/-- An at-rest scope satisfies C10's hypothesis at every alias. -/
theorem atRest_no_reset (w : World) (a : String) (hw : AtRestS w.scope) :
    ∀ e sv, lookupScope w.scope a ≠ some ⟨.injKey true e, sv⟩ :=
  fun e sv h => absurd (hw a true e sv h).2 (by simp)

end Injection
